import Mathlib

/-!
Verification of the Claude-to-Speech TTS pipeline.

This file gives a shallow embedding of the two core subsystems of the
repository and proves (or refutes) the frozen specification claims about
them:

* the stream deduplication engine
  (`server/smart_streaming_processor.py`, class `SimplifiedTTSProcessor`):
  text cleaning, base-response-id extraction, fuzzy draft/final
  reconciliation and the draft buffer `oneshot_raw_texts`;
* the playback queue manager (`audio_manager_plugin.py`, class
  `AudioManager`): `queue_audio` deduplication, unique filename
  generation, the queue-processor loop, `play_audio` state handling, and
  the completion-wait entry points called from `server/tts_server.py`.

Text is modelled as `List Char` (Python strings are sequences of code
points; all operations used by the code are length-preserving on the
examples of interest).  Machine-level details that the claims do not
depend on (actual audio bytes, wall-clock time, the event loop) are made
explicit parameters (`PlayEnv`, timestamps, uuid hex strings, synthesis
outcomes) so that every function is a pure, executable definition.
-/

/-! ## Text utilities of `SimplifiedTTSProcessor` -/

/-- Python `\s` / `str.strip()` whitespace on the ASCII range:
space, tab, newline, carriage return, vertical tab, form feed. -/
def isWS (c : Char) : Bool :=
  c == ' ' || c == '\t' || c == '\n' || c == '\r' || c == '\x0b' || c == '\x0c'

/-- Python `str.strip()`: drop whitespace from both ends. -/
def stripWS (l : List Char) : List Char :=
  ((l.dropWhile isWS).reverse.dropWhile isWS).reverse

/-- `text.replace('\n\n', '. ')` — left-to-right, non-overlapping. -/
def replDoubleNl : List Char → List Char
  | [] => []
  | [c] => [c]
  | a :: b :: rest =>
    if a = '\n' ∧ b = '\n' then '.' :: ' ' :: replDoubleNl rest
    else a :: replDoubleNl (b :: rest)

/-- `text.replace('\n', ' ')`. -/
def replNl (l : List Char) : List Char :=
  l.map (fun c => if c = '\n' then ' ' else c)

/-- `re.sub(r'\s+', ' ', text)`: collapse every whitespace run to one space.
The flag records whether the previous character was part of a run. -/
def collapseWSAux : Bool → List Char → List Char
  | _, [] => []
  | prevWS, c :: rest =>
    if isWS c then (if prevWS then [] else [' ']) ++ collapseWSAux true rest
    else c :: collapseWSAux false rest

def collapseWS (l : List Char) : List Char := collapseWSAux false l

/-- Lookahead for `re.sub(r'\(\s*\)', '', text)`: after an opening paren,
skip whitespace and check for the closing paren. -/
def parenTail (l : List Char) : Option (List Char) :=
  match l.dropWhile isWS with
  | ')' :: rest => some rest
  | _ => none

/-- Recursion for `remParens`, structurally on a fuel bound.  Every
recursive call strictly shrinks the list while fuel drops by one, so
with fuel at least the list length the fallback is never reached. -/
def remParensAux : Nat → List Char → List Char
  | _, [] => []
  | 0, l => l
  | fuel + 1, c :: rest =>
    if c = '(' then
      match parenTail rest with
      | some rest2 => remParensAux fuel rest2
      | none => '(' :: remParensAux fuel rest
    else c :: remParensAux fuel rest

/-- `re.sub(r'\(\s*\)', '', text)` — remove empty parenthetical remnants,
single left-to-right pass. -/
def remParens (l : List Char) : List Char :=
  remParensAux l.length l

/-- `SimplifiedTTSProcessor._clean_text_for_tts` (lines 33-52):
strip, paragraph breaks to `'. '`, newlines to spaces, collapse
whitespace runs, remove empty parentheses, strip again.  An empty (falsy)
input returns the empty string immediately. -/
def clean_text_for_tts (l : List Char) : List Char :=
  if l = [] then []
  else stripWS (remParens (collapseWS (replNl (replDoubleNl (stripWS l)))))

/-! ## `_get_base_response_id` -/

/-- Python `s.split('-')` (non-empty separator): `""` splits to `[""]`. -/
def splitOnChar (c : Char) : List Char → List (List Char)
  | [] => [[]]
  | x :: xs =>
    if x = c then [] :: splitOnChar c xs
    else
      match splitOnChar c xs with
      | h :: t => (x :: h) :: t
      | [] => [[x]]

/-- Python `'-'.join(parts)`. -/
def joinDash : List (List Char) → List Char
  | [] => []
  | [x] => x
  | x :: y :: rest => x ++ '-' :: joinDash (y :: rest)

def knownSuffixes : List (List Char) :=
  ["oneshot".data, "delta".data, "complete".data, "full".data,
   "finalized".data, "stop".data]

/-- `SimplifiedTTSProcessor._get_base_response_id` (lines 54-68):
strip one known suffix (or a compound suffix) from a dash-separated id,
but only when the id splits into more than two parts. -/
def get_base_response_id (fid : List Char) : List Char :=
  let parts := splitOnChar '-' fid
  if parts.length > 2 ∧ parts.getLastD [] ∈ knownSuffixes then
    if parts.length > 3 ∧ parts.dropLast.getLastD [] ∈ knownSuffixes then
      joinDash (parts.dropLast.dropLast)
    else joinDash parts.dropLast
  else fid

/-! ## Substring membership and fuzzy matching -/

/-- `isPreL p l`: `p` is an initial segment of `l`. -/
def isPreL : List Char → List Char → Bool
  | [], _ => true
  | _ :: _, [] => false
  | x :: xs, y :: ys => x == y && isPreL xs ys

/-- Python `pat in s`: `pat` occurs contiguously in `s`. -/
def hasSubL (pat : List Char) : List Char → Bool
  | [] => isPreL pat []
  | y :: ys => isPreL pat (y :: ys) || hasSubL pat ys

def oneshotTag : List Char := "oneshot".data

structure MatchInfo where
  apos : Nat
  bpos : Nat
  size : Nat
deriving DecidableEq, Repr

/-- difflib's autojunk heuristic (`SequenceMatcher.__chain_b` with
`isjunk=None`, `autojunk=True`): when the second sequence has 200 or
more elements, every element occurring more than `len(b)//100 + 1`
times is "popular" and purged from the match index `b2j`. -/
def popularB (b : List Char) : Char → Bool := fun c =>
  decide (200 ≤ b.length) && decide (b.length / 100 + 1 < b.count c)

/-- Length of the longest common initial segment of two strings all of
whose matched characters survive the popularity purge of the second
sequence (a match position `j` exists in `b2j` only for unpurged
characters). -/
def purgedLen (pop : Char → Bool) : List Char → List Char → Nat
  | x :: xs, y :: ys =>
    if x = y ∧ pop y = false then purgedLen pop xs ys + 1 else 0
  | _, _ => 0

/-- Scan of all match positions `j` in `xb` against position `i` of
`xa`, keeping the first strictly longer purged match. -/
def innerScan (xa xb : List Char) (pop : Char → Bool) (i : Nat)
    (acc : MatchInfo) : MatchInfo :=
  (List.range (xb.length + 1)).foldl (fun acc2 j =>
    if acc2.size < purgedLen pop (xa.drop i) (xb.drop j) then
      ⟨i, j, purgedLen pop (xa.drop i) (xb.drop j)⟩
    else acc2) acc

/-- The matching phase of `find_longest_match`: the longest common
contiguous substring avoiding purged characters of `xb`, earliest in
`xa` then earliest in `xb` among the maximal ones (the scan keeps a
block only on strict improvement, so the first maximal block in
row-major order wins, matching the loop over `i` and the ascending
index lists of `b2j`). -/
def rawLongestMatch (xa xb : List Char) : MatchInfo :=
  (List.range (xa.length + 1)).foldl
    (fun acc i => innerScan xa xb (popularB xb) i acc) ⟨0, 0, 0⟩

/-- First extension loop of `find_longest_match`: with `isjunk=None`
the junk set `bjunk` is empty, so `not isbjunk(...)` always holds and
the block extends left over any equal characters, popular ones
included. -/
def extLeft (xa xb : List Char) : Nat → Nat → Nat → MatchInfo
  | 0, j, k => ⟨0, j, k⟩
  | i + 1, 0, k => ⟨i + 1, 0, k⟩
  | i + 1, j + 1, k =>
    if xa.getD i ' ' = xb.getD j ' ' then extLeft xa xb i j (k + 1)
    else ⟨i + 1, j + 1, k⟩

/-- Second extension loop: extend the block right over equal
characters while both indices stay in range.  The fuel argument makes
the recursion structural; any fuel at least `xb.length` is enough for
the loop to run to its genuine exit condition. -/
def extRightAux (xa xb : List Char) (i j : Nat) : Nat → Nat → Nat
  | 0, k => k
  | fuel + 1, k =>
    if i + k < xa.length ∧ j + k < xb.length ∧
        xa.getD (i + k) ' ' = xb.getD (j + k) ' ' then
      extRightAux xa xb i j fuel (k + 1)
    else k

/-- `difflib.SequenceMatcher(None, xa, xb).find_longest_match(0,
len(xa), 0, len(xb))` with the default `autojunk=True`: the matching
phase on the popularity-purged index, then the left and right
extension loops over equal characters.  The trailing junk-only
extension loops of the source never fire because `isjunk=None` leaves
`bjunk` empty. -/
def bestMatch (xa xb : List Char) : MatchInfo :=
  let raw := rawLongestMatch xa xb
  let ext := extLeft xa xb raw.apos raw.bpos raw.size
  ⟨ext.apos, ext.bpos,
    extRightAux xa xb ext.apos ext.bpos (xa.length + xb.length) ext.size⟩

/-- Python `str.lower`, character-wise (length preserving). -/
def toLowerL (l : List Char) : List Char := l.map Char.toLower

/-! ## The deduplication engine state and `process_chunk` -/

/-- Association list with Python-`dict` semantics (insertion order,
assignment replaces in place). -/
def lookupA (k : List Char) : List (List Char × List Char) → Option (List Char)
  | [] => none
  | (k0, v0) :: rest => if k0 = k then some v0 else lookupA k rest

def insertA (k v : List Char) :
    List (List Char × List Char) → List (List Char × List Char)
  | [] => [(k, v)]
  | (k0, v0) :: rest =>
    if k0 = k then (k0, v) :: rest else (k0, v0) :: insertA k v rest

def eraseA (k : List Char) (l : List (List Char × List Char)) :
    List (List Char × List Char) :=
  l.filter (fun p => decide (p.1 ≠ k))

/-- State of `SimplifiedTTSProcessor`: the draft buffer
`oneshot_raw_texts` mapping base response ids to raw one-shot text. -/
structure ProcState where
  oneshots : List (List Char × List Char)
deriving DecidableEq

/-- `SimplifiedTTSProcessor.process_chunk` (lines 87-146).  Returns the
new state and the list of cleaned texts handed to
`audio_manager.queue_audio` (zero or one element).

The threshold test `match.size > len(stored_oneshot) * 0.8` is modelled
as `5 * size > 4 * length`; for lengths below 2^50 the Python float
computation of `len * 0.8` rounds to exactly `4*len/5`-adjacent values
whose integer comparisons agree with the exact rational test. -/
def processChunk (st : ProcState) (text fid : List Char) (isComplete : Bool) :
    ProcState × List (List Char) :=
  let base := get_base_response_id fid
  if !isComplete && hasSubL oneshotTag fid then
    (⟨insertA base text st.oneshots⟩,
      let c := clean_text_for_tts text
      if c = [] then [] else [c])
  else if isComplete then
    match lookupA base st.oneshots with
    | some stored =>
      let m := bestMatch (toLowerL stored) (toLowerL text)
      if 5 * m.size > 4 * stored.length then
        let delta := stripWS (text.drop (m.bpos + m.size))
        if delta = [] then (⟨eraseA base st.oneshots⟩, [])
        else
          (⟨eraseA base st.oneshots⟩,
            let c := clean_text_for_tts delta
            if c = [] then [] else [c])
      else
        (⟨eraseA base st.oneshots⟩,
          let c := clean_text_for_tts text
          if c = [] then [] else [c])
    | none =>
      (st, let c := clean_text_for_tts text
           if c = [] then [] else [c])
  else (st, [])

/-- The operations that mutate the engine state: `process_chunk` and
`reset_conversation` (line 164 clears `oneshot_raw_texts`). -/
inductive EngineOp
  | chunk : List Char → List Char → Bool → EngineOp
  | reset : EngineOp

def applyOp (st : ProcState) : EngineOp → ProcState
  | .chunk text fid ic => (processChunk st text fid ic).1
  | .reset => ⟨[]⟩

def runOps : ProcState → List EngineOp → ProcState
  | st, [] => st
  | st, op :: ops => runOps (applyOp st op) ops

/-- An operation that neither resets nor reconciles a final chunk for
base id `b`. -/
def opKeeps (b : List Char) : EngineOp → Bool
  | .chunk _ fid ic => !ic || decide (get_base_response_id fid ≠ b)
  | .reset => false

/-! ## The playback queue manager (`audio_manager_plugin.py`) -/

/-- The mutable state of `AudioManager` that the claims are about:
`AudioManagerState` fields plus the queue, the processing flag, and a
counter of how many `process_audio_queue` task instances have been
created (`asyncio.create_task` calls at line 109). -/
structure AMState where
  currently_queued_files : List String
  current_audio_file : Option String
  is_playing : Bool
  is_speaking : Bool
  playback_start_time : Option Nat
  expected_duration : Option ℚ
  audio_queue : List (Option String × Bool)
  is_processing_queue : Bool
  spawned_loops : Nat
deriving DecidableEq

/-- State after `AudioManager.__init__`. -/
def initAM : AMState :=
  ⟨[], none, false, false, none, none, [], false, 0⟩

/-- Python truthiness of an optional string (`None` and `""` are falsy). -/
def optStrTruthy : Option String → Bool
  | none => false
  | some s => decide (s ≠ "")

def AUDIO_CACHE_DIR : String := "~/LAURA/audio_cache"

/-- `AudioManager._generate_unique_audio_filename` (lines 111-114): the
path is built from the current millisecond timestamp and a fresh
`uuid4().hex`; the text to be synthesized does not enter the name. -/
def generate_unique_audio_filename (ts : Nat) (uuidHex : String) : String :=
  AUDIO_CACHE_DIR ++ "/tts_" ++ toString ts ++ "_" ++ uuidHex ++ ".mp3"

/-- Outcome of `_save_tts_to_file` (the ElevenLabs call): success or a
raised exception, which `queue_audio` catches and turns into a plain
return. -/
inductive SynthOutcome
  | ok
  | err
deriving DecidableEq

/-- `await self.audio_queue.put(...)` followed by the conditional
`asyncio.create_task(self.process_audio_queue())` (lines 106-109).
The flag `is_processing_queue` is only set once the created task actually
runs (line 152), not at creation. -/
def finishPut (st : AMState) (af : Option String) (del : Bool) : AMState :=
  let st1 := { st with audio_queue := st.audio_queue ++ [(af, del)] }
  if st1.is_processing_queue then st1
  else { st1 with spawned_loops := st1.spawned_loops + 1 }

/-- Lines 99-109 of `queue_audio`, after the optional synthesis step:
duplicate suppression against the pending set and the currently playing
file, then enqueue and maybe spawn the processor task. -/
def queue_audio_resolved (st : AMState) (af : Option String) (del : Bool) :
    AMState :=
  if optStrTruthy af then
    let f := af.getD ""
    if f ∈ st.currently_queued_files ∨ st.current_audio_file = some f then st
    else
      finishPut { st with currently_queued_files := f :: st.currently_queued_files }
        af del
  else finishPut st af del

/-- `AudioManager.queue_audio` (lines 85-109).  When `generated_text` is
truthy and no `audio_file` is given, a unique filename is generated and
the text synthesized into it; a synthesis failure is caught and the call
returns with no state change.  `ts` and `uuidHex` make the timestamp and
`uuid4().hex` used by `_generate_unique_audio_filename` explicit. -/
def queue_audio (st : AMState) (audio_file0 generated_text : Option String)
    (del : Bool) (ts : Nat) (uuidHex : String) (synth : SynthOutcome) :
    AMState :=
  if optStrTruthy generated_text && !optStrTruthy audio_file0 then
    match synth with
    | .err => st
    | .ok => queue_audio_resolved st
        (some (generate_unique_audio_filename ts uuidHex)) del
  else queue_audio_resolved st audio_file0 del

/-- First action of `process_audio_queue` (line 152) once the created
task is scheduled and runs: it sets the processing flag. -/
def processor_task_starts (st : AMState) : AMState :=
  { st with is_processing_queue := true }

/-- Outcome of the playback subprocess section of `play_audio`:
`create_subprocess_shell` raises, or the process is spawned and
eventually exits with some code (`wait()` returns the code and never
raises; the code is ignored by the source). -/
inductive SubprocOutcome
  | spawned : Int → SubprocOutcome
  | spawnRaise
deriving DecidableEq

/-- Environment of one `play_audio` run: result of the MP3 metadata
read (`none` = the read raised), the subprocess outcome, whether the
file still exists afterwards, whether `os.remove` succeeds, and the
wall-clock reading for `time.time()`. -/
structure PlayEnv where
  durationRead : Option ℚ
  subproc : SubprocOutcome
  fileExistsAfter : Bool
  removeOk : Bool
  now : Nat
deriving DecidableEq

/-- `AudioManager.play_audio` (lines 182-230).  Returns the state after
the `finally` block together with whether the audio artifact was
actually deleted.  The function never raises: the duration read is
wrapped in its own try/except (fallback duration 2.0), the subprocess
section's exceptions are caught at line 212, and the `finally` block
always restores the idle state. -/
def play_audio (st : AMState) (f : String) (del : Bool) (env : PlayEnv) :
    AMState × Bool :=
  let st1 := { st with is_speaking := true, is_playing := true,
                       playback_start_time := some env.now,
                       current_audio_file := some f }
  let st2 := match env.durationRead with
    | some d => { st1 with expected_duration := some d }
    | none => { st1 with expected_duration := some 2 }
  let st3 := match env.subproc with
    | .spawned _ => st2
    | .spawnRaise => st2
  let st4 := { st3 with is_speaking := false, is_playing := false,
                        playback_start_time := none,
                        current_audio_file := none,
                        expected_duration := none }
  (st4, del && env.fileExistsAfter && env.removeOk)

/-- One iteration of the `process_audio_queue` worker loop
(lines 154-171): wait for the next item (a timeout just re-checks the
flag), play it if the stored `audio_file` is truthy, then discard it
from the pending set.  Exceptions inside the iteration are caught and
the loop continues. -/
def process_queue_step (st : AMState) (env : PlayEnv) : AMState :=
  match st.audio_queue with
  | [] => st
  | (af, del) :: rest =>
    let st0 := { st with audio_queue := rest }
    if optStrTruthy af then
      let f := af.getD ""
      let st1 := (play_audio st0 f del env).1
      { st1 with
        currently_queued_files := st1.currently_queued_files.filter
          (fun g => decide (g ≠ f)) }
    else st0

/-! ## Playback traces -/

/-- Observable playback events produced by the worker loop: the loop
dequeues one task at a time and awaits `play_audio` to completion before
touching the next, so each truthy task contributes a start immediately
followed by its finish. -/
inductive AudioEvent
  | start : String → AudioEvent
  | stop : String → AudioEvent
deriving DecidableEq

/-- Trace of a single worker loop draining the queue. -/
def queue_trace : List (Option String × Bool) → List AudioEvent
  | [] => []
  | (af, _) :: rest =>
    if optStrTruthy af then
      .start (af.getD "") :: .stop (af.getD "") :: queue_trace rest
    else queue_trace rest

/-- The files in playback order. -/
def startsOf : List AudioEvent → List String
  | [] => []
  | .start f :: rest => f :: startsOf rest
  | .stop _ :: rest => startsOf rest

def isStartEv : AudioEvent → Bool
  | .start _ => true
  | .stop _ => false

def isStopEv : AudioEvent → Bool
  | .start _ => false
  | .stop _ => true

/-- Number of tasks in flight after a trace segment. -/
def activeCount (l : List AudioEvent) : Int :=
  (l.countP isStartEv : Int) - (l.countP isStopEv : Int)

/-- Number of playbacks of file `f` in a trace. -/
def playsOf (f : String) (l : List AudioEvent) : Nat :=
  l.countP (fun e => e == AudioEvent.start f)

/-! ## Observable instants inside `play_audio` (for the state invariant)

`ObsState` is the projection of the manager state visible to concurrent
readers (the `/status` endpoint reads `state.is_playing` and
`state.current_audio_file` without taking the lock), together with
whether a playback subprocess is currently alive. -/

structure ObsState where
  is_playing : Bool
  current_audio_file : Option String
  subprocess_active : Bool
deriving DecidableEq

/-- The states visible at the `await` suspension points of one
`play_audio f` run starting from the idle state (lines 186-223):
before the run; after the state-lock block has set `is_playing` and
`current_audio_file` but before `create_subprocess_shell` completes;
while awaiting `current_process.wait()`; after the process has exited,
during `asyncio.sleep(0.7)`; and after the `finally` block. -/
def play_audio_obs (f : String) : List ObsState :=
  [ ⟨false, none, false⟩,
    ⟨true, some f, false⟩,
    ⟨true, some f, true⟩,
    ⟨true, some f, false⟩,
    ⟨false, none, false⟩ ]

/-! ## The completion-wait entry points (claim C7)

`AudioManager.wait_for_audio_completion` (line 254) and
`wait_for_queue_empty` (line 259) are declared with no parameter other
than `self`.  The `/stream` handler in `server/tts_server.py`
(lines 100-101) invokes them with a `timeout=` keyword argument.
Python binds keyword arguments against the declared parameter names and
raises `TypeError` on an unexpected keyword. -/

/-- Parameter names of `wait_for_audio_completion` after `self`. -/
def wait_for_audio_completion_params : List String := []

/-- Parameter names of `wait_for_queue_empty` after `self`. -/
def wait_for_queue_empty_params : List String := []

/-- Keyword arguments passed by `stream_text`'s final-chunk wait. -/
def stream_text_wait_kwargs : List String := ["timeout"]

inductive PyCallResult
  | bound
  | typeErr
deriving DecidableEq

/-- Python keyword-argument binding: every keyword must name a declared
parameter, otherwise the call raises `TypeError` before the body runs. -/
def pyBindKwargs (params kwargs : List String) : PyCallResult :=
  if kwargs.all (fun k => params.contains k) then .bound else .typeErr

/-- Specification side of the amended claim C1: what a final chunk with a
stored draft enqueues.  If the longest common substring of the
case-normalized draft and final text is strictly longer than 80% of the
draft, only the final text strictly after the matched region (trimmed,
cleaned) is enqueued, and nothing when that remainder is empty;
otherwise the whole final text is cleaned and enqueued.  (The original
claim said "at least 80%"; the code's comparison is strict.) -/
def specFinalReconcile (stored text : List Char) : List (List Char) :=
  if 5 * (bestMatch (toLowerL stored) (toLowerL text)).size >
      4 * stored.length then
    if stripWS (text.drop ((bestMatch (toLowerL stored) (toLowerL text)).bpos
        + (bestMatch (toLowerL stored) (toLowerL text)).size)) = [] then []
    else if clean_text_for_tts (stripWS (text.drop
        ((bestMatch (toLowerL stored) (toLowerL text)).bpos
          + (bestMatch (toLowerL stored) (toLowerL text)).size))) = [] then []
    else [clean_text_for_tts (stripWS (text.drop
        ((bestMatch (toLowerL stored) (toLowerL text)).bpos
          + (bestMatch (toLowerL stored) (toLowerL text)).size)))]
  else if clean_text_for_tts text = [] then []
  else [clean_text_for_tts text]

/-! ## Helper lemmas: association lists -/

theorem lookupA_insertA_self (k v : List Char)
    (l : List (List Char × List Char)) :
    lookupA k (insertA k v l) = some v := by
  induction l with
  | nil => simp [insertA, lookupA]
  | cons p rest ih =>
    obtain ⟨k0, v0⟩ := p
    by_cases h : k0 = k <;> simp [insertA, lookupA, h, ih]

theorem lookupA_insertA_ne (k0 k v : List Char)
    (l : List (List Char × List Char)) (h : k0 ≠ k) :
    lookupA k (insertA k0 v l) = lookupA k l := by
  induction l with
  | nil => simp [insertA, lookupA, h]
  | cons p rest ih =>
    obtain ⟨k1, v1⟩ := p
    simp only [insertA]
    by_cases h1 : k1 = k0
    · rw [if_pos h1]
      have hk : k1 ≠ k := fun hk1 => h (h1.symm.trans hk1)
      simp [lookupA, hk]
    · rw [if_neg h1]
      by_cases h2 : k1 = k <;> simp [lookupA, h2, ih]

theorem lookupA_eraseA_self (k : List Char) (l : List (List Char × List Char)) :
    lookupA k (eraseA k l) = none := by
  induction l with
  | nil => simp [eraseA, lookupA]
  | cons p rest ih =>
    obtain ⟨k1, v1⟩ := p
    by_cases h1 : k1 = k <;>
      simp_all [eraseA, lookupA, List.filter_cons, h1]

theorem lookupA_eraseA_ne (k0 k : List Char)
    (l : List (List Char × List Char)) (h : k0 ≠ k) :
    lookupA k (eraseA k0 l) = lookupA k l := by
  induction l with
  | nil => simp [eraseA, lookupA]
  | cons p rest ih =>
    obtain ⟨k1, v1⟩ := p
    by_cases h1 : k1 = k0
    · subst h1
      simp_all [eraseA, lookupA, List.filter_cons, h]
    · by_cases h2 : k1 = k <;>
        simp_all [eraseA, lookupA, List.filter_cons, h1, h2]

/-! ## Helper lemmas: the fuzzy matcher on identical strings

For a final text byte-identical to the stored draft `find_longest_match`
returns the full-string match even when autojunk purges characters: the
matching phase only ever improves the kept block at diagonal positions
(an off-diagonal run is dominated by the diagonal run at the smaller of
its two indices, which row-major order visits first), and from a
diagonal block on identical strings the two extension loops sweep to the
whole string. -/

theorem purgedLen_le_length (pop : Char → Bool) :
    ∀ u v : List Char, purgedLen pop u v ≤ v.length := by
  intro u
  induction u with
  | nil => intro v; cases v <;> simp [purgedLen]
  | cons x xs ih =>
    intro v
    cases v with
    | nil => simp [purgedLen]
    | cons y ys =>
      simp only [purgedLen, List.length_cons]
      split
      · have := ih ys; omega
      · omega

theorem purgedLen_le_left_diag (pop : Char → Bool) :
    ∀ u v : List Char, purgedLen pop u v ≤ purgedLen pop u u := by
  intro u
  induction u with
  | nil => intro v; cases v <;> simp [purgedLen]
  | cons x xs ih =>
    intro v
    cases v with
    | nil => simp [purgedLen]
    | cons y ys =>
      by_cases h : x = y ∧ pop y = false
      · have hx : pop x = false := by rw [h.1]; exact h.2
        simp only [purgedLen]
        rw [if_pos h, if_pos ⟨trivial, hx⟩]
        have := ih ys
        omega
      · simp only [purgedLen]
        rw [if_neg h]
        omega

theorem purgedLen_le_right_diag (pop : Char → Bool) :
    ∀ u v : List Char, purgedLen pop u v ≤ purgedLen pop v v := by
  intro u
  induction u with
  | nil => intro v; cases v <;> simp [purgedLen]
  | cons x xs ih =>
    intro v
    cases v with
    | nil => simp [purgedLen]
    | cons y ys =>
      by_cases h : x = y ∧ pop y = false
      · simp only [purgedLen]
        rw [if_pos h, if_pos ⟨trivial, h.2⟩]
        have := ih ys
        omega
      · simp only [purgedLen]
        rw [if_neg h]
        omega

theorem foldl_argmax_const {α : Type} (f : α → Nat) (g : α → MatchInfo)
    (acc : MatchInfo) (xs : List α) (h : ∀ x ∈ xs, f x ≤ acc.size) :
    xs.foldl (fun a x => if a.size < f x then g x else a) acc = acc := by
  induction xs with
  | nil => rfl
  | cons x xs ih =>
    simp only [List.foldl_cons]
    rw [if_neg (by have := h x (by simp); omega)]
    exact ih fun y hy => h y (by simp [hy])

theorem range_split (i n : Nat) (h : i < n) :
    ∃ pre post : List Nat,
      List.range n = pre ++ i :: post ∧
      (∀ j ∈ pre, j < i) ∧ (∀ j ∈ post, i < j) := by
  induction n with
  | zero => omega
  | succ n ih =>
    by_cases hn : i = n
    · subst hn
      exact ⟨List.range i, [], by rw [List.range_succ],
        fun j hj => List.mem_range.mp hj, by simp⟩
    · obtain ⟨pre, post, heq, hpre, hpost⟩ := ih (by omega)
      refine ⟨pre, post ++ [n], ?_, hpre, ?_⟩
      · rw [List.range_succ, heq]
        simp
      · intro j hj
        rcases List.mem_append.mp hj with h1 | h1
        · exact hpost j h1
        · simp at h1
          omega

/-- One row of the matching phase: positions `j < i` are dominated by
their diagonals (already beaten), positions `j > i` by this row's
diagonal, so the row only ever keeps the diagonal candidate. -/
theorem rowScan_eq (f : Nat → Nat → Nat) (m i : Nat) (acc : MatchInfo)
    (him : i < m + 1)
    (hfr : ∀ j, f i j ≤ f j j)
    (hfl : ∀ j, f i j ≤ f i i)
    (hlt : ∀ d, d < i → f d d ≤ acc.size) :
    (List.range (m + 1)).foldl
      (fun a j => if a.size < f i j then ⟨i, j, f i j⟩ else a) acc =
    (if acc.size < f i i then ⟨i, i, f i i⟩ else acc) := by
  obtain ⟨pre, post, heq, hpre, hpost⟩ := range_split i (m + 1) him
  rw [heq, List.foldl_append]
  rw [foldl_argmax_const (f i) (fun j => ⟨i, j, f i j⟩) acc pre
    (fun j hj => le_trans (hfr j) (hlt j (hpre j hj)))]
  rw [List.foldl_cons]
  have hge : f i i ≤
      (if acc.size < f i i then (⟨i, i, f i i⟩ : MatchInfo) else acc).size := by
    split
    · exact le_refl _
    · omega
  exact foldl_argmax_const (f i) (fun j => ⟨i, j, f i j⟩) _ post
    (fun j hj => le_trans (hfl j) hge)

/-- Row-by-row invariant of the matching phase: the kept block stays on
the diagonal and its size is the purged run length of its own position
(or the block is still the initial zero block). -/
theorem outerScan_diag_aux (f : Nat → Nat → Nat) (m : Nat)
    (hfr : ∀ i j, f i j ≤ f j j) (hfl : ∀ i j, f i j ≤ f i i) :
    ∀ (t r : Nat), r + t = m + 1 → ∀ acc : MatchInfo,
    acc.apos = acc.bpos →
    (acc = ⟨0, 0, 0⟩ ∨ (acc.size = f acc.apos acc.apos ∧ acc.apos ≤ m)) →
    (∀ d, d < r → f d d ≤ acc.size) →
    (fun res : MatchInfo => res.apos = res.bpos ∧
        (res = ⟨0, 0, 0⟩ ∨ (res.size = f res.apos res.apos ∧ res.apos ≤ m)))
      (((List.range t).map (fun s => r + s)).foldl
        (fun a i => (List.range (m + 1)).foldl
          (fun a2 j => if a2.size < f i j then ⟨i, j, f i j⟩ else a2) a)
        acc) := by
  intro t
  induction t with
  | zero =>
    intro r hr acc h1 h2 h3
    exact ⟨h1, h2⟩
  | succ t ih =>
    intro r hr acc h1 h2 h3
    rw [List.range_succ_eq_map t, List.map_cons, List.foldl_cons,
      List.map_map]
    have hmaps : (fun s => r + s) ∘ Nat.succ = fun s => (r + 1) + s := by
      funext s
      simp only [Function.comp]
      omega
    rw [hmaps]
    have hrow := rowScan_eq f m r acc (by omega) (hfr r) (hfl r) h3
    simp only [Nat.add_zero]
    rw [hrow]
    apply ih (r + 1) (by omega)
    · split
      · rfl
      · exact h1
    · split
      · right
        exact ⟨rfl, by show r ≤ m; omega⟩
      · exact h2
    · intro d hd
      split
      · rcases Nat.lt_succ_iff_lt_or_eq.mp hd with h | h
        · exact le_trans (h3 d h) (by show acc.size ≤ f r r; omega)
        · subst h; exact le_refl _
      · rcases Nat.lt_succ_iff_lt_or_eq.mp hd with h | h
        · exact h3 d h
        · subst h; omega

theorem rawLongestMatch_self (l : List Char) :
    (rawLongestMatch l l).apos = (rawLongestMatch l l).bpos ∧
    ((rawLongestMatch l l) = ⟨0, 0, 0⟩ ∨
      ((rawLongestMatch l l).size =
          purgedLen (popularB l) (l.drop (rawLongestMatch l l).apos)
            (l.drop (rawLongestMatch l l).apos) ∧
        (rawLongestMatch l l).apos ≤ l.length)) := by
  have h := outerScan_diag_aux
    (fun i j => purgedLen (popularB l) (l.drop i) (l.drop j)) l.length
    (fun i j => purgedLen_le_right_diag _ _ _)
    (fun i j => purgedLen_le_left_diag _ _ _)
    (l.length + 1) 0 (by omega) ⟨0, 0, 0⟩ rfl (Or.inl rfl)
    (by omega)
  simp only [Nat.zero_add, List.map_id'] at h
  exact h

theorem extLeft_self (l : List Char) :
    ∀ (i k : Nat), extLeft l l i i k = ⟨0, 0, k + i⟩ := by
  intro i
  induction i with
  | zero => intro k; rfl
  | succ i ih =>
    intro k
    show extLeft l l (i + 1) (i + 1) k = _
    simp only [extLeft]
    rw [if_pos trivial, ih (k + 1)]
    have : k + 1 + i = k + (i + 1) := by omega
    rw [this]

theorem extRightAux_self (l : List Char) :
    ∀ (fuel k : Nat), k ≤ l.length → l.length ≤ k + fuel →
    extRightAux l l 0 0 fuel k = l.length := by
  intro fuel
  induction fuel with
  | zero =>
    intro k h1 h2
    simp only [extRightAux]
    omega
  | succ fuel ih =>
    intro k h1 h2
    simp only [extRightAux]
    by_cases hk : k < l.length
    · rw [if_pos ⟨by omega, by omega, trivial⟩]
      exact ih (k + 1) (by omega) (by omega)
    · rw [if_neg (fun hcon => absurd hcon.1 (by omega))]
      omega

theorem bestMatch_self (l : List Char) :
    bestMatch l l = ⟨0, 0, l.length⟩ := by
  obtain ⟨hd, hs⟩ := rawLongestMatch_self l
  have hbound : (rawLongestMatch l l).size + (rawLongestMatch l l).apos ≤
      l.length := by
    rcases hs with h0 | ⟨hsz, hapos⟩
    · rw [h0]
      simp
    · have hle := purgedLen_le_length (popularB l)
        (l.drop (rawLongestMatch l l).apos)
        (l.drop (rawLongestMatch l l).apos)
      rw [← hsz, List.length_drop] at hle
      omega
  unfold bestMatch
  dsimp only
  rw [← hd, extLeft_self l (rawLongestMatch l l).apos
    (rawLongestMatch l l).size]
  show (⟨0, 0, extRightAux l l 0 0 (l.length + l.length)
      ((rawLongestMatch l l).size + (rawLongestMatch l l).apos)⟩ :
    MatchInfo) = ⟨0, 0, l.length⟩
  rw [extRightAux_self l (l.length + l.length)
    ((rawLongestMatch l l).size + (rawLongestMatch l l).apos)
    hbound (by omega)]

/-! ## Claim C1 -/

theorem specFinalReconcile_self (text : List Char) :
    specFinalReconcile text text = [] := by
  by_cases htext : text = []
  · subst htext; rfl
  · have hm := bestMatch_self (toLowerL text)
    have hlen : (toLowerL text).length = text.length := by
      simp [toLowerL]
    unfold specFinalReconcile
    rw [hm]
    have hpos : 0 < text.length := List.length_pos.mpr htext
    rw [if_pos (by simp only [hlen]; omega)]
    rw [if_pos (by simp [hlen, List.drop_length, stripWS])]

/-- C1 (corrected): when a final chunk arrives for a base id with a
stored draft, the draft entry is removed and the enqueued text is
exactly `specFinalReconcile`: the after-match remainder when the longest
common substring of the case-normalized texts is strictly longer than
80% of the draft, the whole cleaned final text otherwise; a final chunk
byte-identical to its stored draft enqueues nothing. -/
theorem c1_final_reconciliation (st : ProcState) (stored text fid : List Char)
    (h : lookupA (get_base_response_id fid) st.oneshots = some stored) :
    processChunk st text fid true =
      (⟨eraseA (get_base_response_id fid) st.oneshots⟩,
        specFinalReconcile stored text)
    ∧ lookupA (get_base_response_id fid)
        (processChunk st text fid true).1.oneshots = none
    ∧ (stored = text → (processChunk st text fid true).2 = []) := by
  have hmain : processChunk st text fid true =
      (⟨eraseA (get_base_response_id fid) st.oneshots⟩,
        specFinalReconcile stored text) := by
    unfold processChunk specFinalReconcile
    simp only [Bool.not_true, Bool.false_and, Bool.false_eq_true, if_false,
      eq_self_iff_true, if_true, h]
    split
    · split
      · rfl
      · rfl
    · rfl
  refine ⟨hmain, ?_, ?_⟩
  · rw [hmain]
    exact lookupA_eraseA_self _ _
  · intro hst
    rw [hmain, hst]
    exact specFinalReconcile_self text

set_option maxRecDepth 8000 in
/-- C1 counterexample: with stored draft `"abcde"` and final text
`"abcdXYZ"`, the longest common substring of the case-normalized texts
has length 4, exactly 80% of the draft length 5.  The claim ("at least
80%") demands that only the after-match remainder `"XYZ"` be enqueued;
the code's strict comparison takes the below-threshold branch and
enqueues the whole cleaned final text `"abcdXYZ"`. -/
theorem c1_threshold_boundary_cex :
    (bestMatch (toLowerL "abcde".data) (toLowerL "abcdXYZ".data)).size = 4
    ∧ ("abcde".data : List Char).length = 5
    ∧ (processChunk ⟨[("r-1".data, "abcde".data)]⟩ "abcdXYZ".data
        "r-1-complete".data true).2 = ["abcdXYZ".data]
    ∧ (processChunk ⟨[("r-1".data, "abcde".data)]⟩ "abcdXYZ".data
        "r-1-complete".data true).2 ≠ ["XYZ".data] := by
  decide

set_option maxRecDepth 8000 in
theorem c1_final_reconciliation_witness :
    lookupA (get_base_response_id "r-1-complete".data)
        (⟨[("r-1".data, "hello".data)]⟩ : ProcState).oneshots =
          some "hello".data
    ∧ (processChunk ⟨[("r-1".data, "hello".data)]⟩ "hello world".data
          "r-1-complete".data true =
        (⟨eraseA (get_base_response_id "r-1-complete".data)
            [("r-1".data, "hello".data)]⟩,
          specFinalReconcile "hello".data "hello world".data)
      ∧ lookupA (get_base_response_id "r-1-complete".data)
          (processChunk ⟨[("r-1".data, "hello".data)]⟩ "hello world".data
            "r-1-complete".data true).1.oneshots = none
      ∧ ("hello".data = "hello world".data →
          (processChunk ⟨[("r-1".data, "hello".data)]⟩ "hello world".data
            "r-1-complete".data true).2 = [])) :=
  ⟨by decide, c1_final_reconciliation ⟨[("r-1".data, "hello".data)]⟩
    "hello".data "hello world".data "r-1-complete".data (by decide)⟩

/-! ## Helper lemmas: the playback queue manager -/

theorem finishPut_queue (st : AMState) (af : Option String) (d : Bool) :
    (finishPut st af d).audio_queue = st.audio_queue ++ [(af, d)] := by
  simp only [finishPut]
  split <;> rfl

theorem finishPut_pending (st : AMState) (af : Option String) (d : Bool) :
    (finishPut st af d).currently_queued_files = st.currently_queued_files := by
  simp only [finishPut]
  split <;> rfl

theorem finishPut_current (st : AMState) (af : Option String) (d : Bool) :
    (finishPut st af d).current_audio_file = st.current_audio_file := by
  simp only [finishPut]
  split <;> rfl

theorem queue_audio_file_dup (st : AMState) (f : String) (d : Bool)
    (ts : Nat) (u : String) (so : SynthOutcome) (hf : f ≠ "")
    (h0 : f ∈ st.currently_queued_files ∨ st.current_audio_file = some f) :
    queue_audio st (some f) none d ts u so = st := by
  unfold queue_audio queue_audio_resolved
  simp only [optStrTruthy, Bool.false_and, Bool.false_eq_true, if_false,
    Option.getD_some]
  rw [if_pos (by simp [hf]), if_pos h0]

theorem queue_audio_file_fresh (st : AMState) (f : String) (d : Bool)
    (ts : Nat) (u : String) (so : SynthOutcome) (hf : f ≠ "")
    (hp : f ∉ st.currently_queued_files)
    (hc : st.current_audio_file ≠ some f) :
    queue_audio st (some f) none d ts u so =
      finishPut
        { st with currently_queued_files := f :: st.currently_queued_files }
        (some f) d := by
  unfold queue_audio queue_audio_resolved
  simp only [optStrTruthy, Bool.false_and, Bool.false_eq_true, if_false,
    Option.getD_some]
  rw [if_pos (by simp [hf]), if_neg (by push_neg; exact ⟨hp, hc⟩)]

theorem queue_trace_append (q1 q2 : List (Option String × Bool)) :
    queue_trace (q1 ++ q2) = queue_trace q1 ++ queue_trace q2 := by
  induction q1 with
  | nil => rfl
  | cons p rest ih =>
    obtain ⟨af, d⟩ := p
    simp only [List.cons_append, queue_trace]
    by_cases h : optStrTruthy af = true <;> simp [h, ih]

theorem playsOf_append (f : String) (l1 l2 : List AudioEvent) :
    playsOf f (l1 ++ l2) = playsOf f l1 + playsOf f l2 := by
  simp [playsOf, List.countP_append]

/-! ## Claim C2 -/

/-- C2 (confirmed): enqueuing an audio-file identity that is already
pending or currently playing is a complete no-op (queue, pending set and
the rest of the state unchanged), and enqueuing the same identity twice
from a state where it is neither pending nor playing adds exactly one
playback of it. -/
theorem c2_enqueue_dedup (st : AMState) (f : String) (d1 d2 : Bool)
    (ts1 ts2 : Nat) (u1 u2 : String) (s1 s2 : SynthOutcome)
    (hf : f ≠ "")
    (hp : f ∉ st.currently_queued_files)
    (hc : st.current_audio_file ≠ some f) :
    (∀ st0 : AMState,
        f ∈ st0.currently_queued_files ∨ st0.current_audio_file = some f →
        queue_audio st0 (some f) none d2 ts2 u2 s2 = st0)
    ∧ queue_audio (queue_audio st (some f) none d1 ts1 u1 s1)
        (some f) none d2 ts2 u2 s2 =
      queue_audio st (some f) none d1 ts1 u1 s1
    ∧ playsOf f (queue_trace
        (queue_audio st (some f) none d1 ts1 u1 s1).audio_queue) =
      playsOf f (queue_trace st.audio_queue) + 1 := by
  have hnoop : ∀ st0 : AMState,
      f ∈ st0.currently_queued_files ∨ st0.current_audio_file = some f →
      queue_audio st0 (some f) none d2 ts2 u2 s2 = st0 :=
    fun st0 h0 => queue_audio_file_dup st0 f d2 ts2 u2 s2 hf h0
  have hst1 := queue_audio_file_fresh st f d1 ts1 u1 s1 hf hp hc
  refine ⟨hnoop, ?_, ?_⟩
  · apply hnoop
    left
    rw [hst1, finishPut_pending]
    exact List.mem_cons_self f _
  · rw [hst1, finishPut_queue, queue_trace_append, playsOf_append]
    have hone : playsOf f (queue_trace [(some f, d1)]) = 1 := by
      simp [queue_trace, optStrTruthy, hf, playsOf]
    rw [hone]

theorem c2_enqueue_dedup_witness :
    (("x" : String) ≠ "" ∧ "x" ∉ initAM.currently_queued_files ∧
      initAM.current_audio_file ≠ some "x")
    ∧ ((∀ st0 : AMState,
          "x" ∈ st0.currently_queued_files ∨
            st0.current_audio_file = some "x" →
          queue_audio st0 (some "x") none false 2 "b" .ok = st0)
      ∧ queue_audio (queue_audio initAM (some "x") none true 1 "a" .ok)
          (some "x") none false 2 "b" .ok =
        queue_audio initAM (some "x") none true 1 "a" .ok
      ∧ playsOf "x" (queue_trace
          (queue_audio initAM (some "x") none true 1 "a" .ok).audio_queue) =
        playsOf "x" (queue_trace initAM.audio_queue) + 1) :=
  ⟨⟨by decide, by decide, by decide⟩,
    c2_enqueue_dedup initAM "x" true false 1 2 "a" "b" .ok .ok
      (by decide) (by decide) (by decide)⟩

/-! ## Claim C3 -/

theorem generate_unique_audio_filename_ne_empty (ts : Nat) (u : String) :
    generate_unique_audio_filename ts u ≠ "" := by
  intro h
  have h2 := congrArg String.data h
  unfold generate_unique_audio_filename at h2
  rw [String.data_append] at h2
  rw [List.append_eq_nil] at h2
  exact absurd h2.2 (by decide)

theorem queue_audio_text_ok (st : AMState) (txt : String) (d : Bool)
    (ts : Nat) (u : String) (htxt : txt ≠ "")
    (hp : generate_unique_audio_filename ts u ∉ st.currently_queued_files)
    (hc : st.current_audio_file ≠
        some (generate_unique_audio_filename ts u)) :
    queue_audio st none (some txt) d ts u .ok =
      finishPut
        { st with currently_queued_files :=
            generate_unique_audio_filename ts u ::
              st.currently_queued_files }
        (some (generate_unique_audio_filename ts u)) d := by
  unfold queue_audio
  rw [if_pos (by simp [optStrTruthy, htxt])]
  show queue_audio_resolved st
    (some (generate_unique_audio_filename ts u)) d = _
  unfold queue_audio_resolved
  rw [if_pos (by simp [optStrTruthy, generate_unique_audio_filename_ne_empty])]
  simp only [Option.getD_some]
  rw [if_neg (by push_neg; exact ⟨hp, hc⟩)]

/-- C3 counterexample: two enqueues of the same synthesized text get two
distinct identities (the filename depends only on the timestamp and the
random uuid hex, not on the content), so both pass the duplicate check
and two playbacks of the same utterance are queued — the claim demanded
a single playback. -/
theorem c3_identity_not_content_cex :
    generate_unique_audio_filename 1 "aa" ≠
      generate_unique_audio_filename 2 "bb"
    ∧ (queue_audio (queue_audio initAM none (some "hello") true 1 "aa" .ok)
        none (some "hello") true 2 "bb" .ok).audio_queue =
      [(some (generate_unique_audio_filename 1 "aa"), true),
       (some (generate_unique_audio_filename 2 "bb"), true)]
    ∧ (startsOf (queue_trace
        (queue_audio (queue_audio initAM none (some "hello") true 1 "aa" .ok)
          none (some "hello") true 2 "bb" .ok).audio_queue)).length = 2
    ∧ (startsOf (queue_trace
        (queue_audio (queue_audio initAM none (some "hello") true 1 "aa" .ok)
          none (some "hello") true 2 "bb" .ok).audio_queue)).length ≠ 1 := by
  decide

/-- C3 (amended): the identity of a freshly synthesized task is a
timestamp-and-uuid derived file path, independent of the text; whenever
the two generated filenames differ, two enqueues of the same text both
enter the queue, producing two playbacks of the same utterance. -/
theorem c3_unique_filename_no_dedup (st : AMState) (txt : String)
    (d1 d2 : Bool) (ts1 ts2 : Nat) (u1 u2 : String)
    (htxt : txt ≠ "")
    (hne : generate_unique_audio_filename ts1 u1 ≠
        generate_unique_audio_filename ts2 u2)
    (hp1 : generate_unique_audio_filename ts1 u1 ∉
        st.currently_queued_files)
    (hp2 : generate_unique_audio_filename ts2 u2 ∉
        st.currently_queued_files)
    (hc1 : st.current_audio_file ≠
        some (generate_unique_audio_filename ts1 u1))
    (hc2 : st.current_audio_file ≠
        some (generate_unique_audio_filename ts2 u2)) :
    (queue_audio (queue_audio st none (some txt) d1 ts1 u1 .ok)
        none (some txt) d2 ts2 u2 .ok).audio_queue =
      st.audio_queue ++
        [(some (generate_unique_audio_filename ts1 u1), d1),
         (some (generate_unique_audio_filename ts2 u2), d2)] := by
  have h1 := queue_audio_text_ok st txt d1 ts1 u1 htxt hp1 hc1
  have hp2a : generate_unique_audio_filename ts2 u2 ∉
      (queue_audio st none (some txt) d1 ts1 u1 .ok).currently_queued_files := by
    rw [h1, finishPut_pending]
    simp only [List.mem_cons]
    push_neg
    exact ⟨Ne.symm hne, hp2⟩
  have hc2a : (queue_audio st none (some txt) d1 ts1 u1 .ok).current_audio_file ≠
      some (generate_unique_audio_filename ts2 u2) := by
    rw [h1, finishPut_current]
    exact hc2
  have h2 := queue_audio_text_ok
    (queue_audio st none (some txt) d1 ts1 u1 .ok) txt d2 ts2 u2
    htxt hp2a hc2a
  rw [h2, finishPut_queue, h1, finishPut_queue]
  simp

theorem c3_unique_filename_no_dedup_witness :
    (("hello" : String) ≠ ""
      ∧ generate_unique_audio_filename 1 "aa" ≠
          generate_unique_audio_filename 2 "bb"
      ∧ generate_unique_audio_filename 1 "aa" ∉
          initAM.currently_queued_files
      ∧ generate_unique_audio_filename 2 "bb" ∉
          initAM.currently_queued_files
      ∧ initAM.current_audio_file ≠
          some (generate_unique_audio_filename 1 "aa")
      ∧ initAM.current_audio_file ≠
          some (generate_unique_audio_filename 2 "bb"))
    ∧ (queue_audio (queue_audio initAM none (some "hello") true 1 "aa" .ok)
        none (some "hello") true 2 "bb" .ok).audio_queue =
      initAM.audio_queue ++
        [(some (generate_unique_audio_filename 1 "aa"), true),
         (some (generate_unique_audio_filename 2 "bb"), true)] :=
  ⟨⟨by decide, by decide, by decide, by decide, by decide, by decide⟩,
    c3_unique_filename_no_dedup initAM "hello" true true 1 2 "aa" "bb"
      (by decide) (by decide) (by decide) (by decide) (by decide)
      (by decide)⟩

/-! ## Claim C4 -/

/-- C4 (confirmed): whatever the playback environment does — metadata
read failure, subprocess spawn failure, abnormal exit code — one worker
iteration on a queued task always ends with the playing/speaking state
cleared, the current task reference reset, the identity released from
the pending set, the remaining queue intact for the next iteration, and
the loop flag untouched; the artifact is deleted exactly when
`delete_after_play` is set, the file still exists and `os.remove`
succeeds; and a synthesis failure in `queue_audio` leaves the whole
manager state unchanged instead of raising to the caller. -/
theorem c4_failure_confined (st : AMState) (f : String) (del : Bool)
    (rest : List (Option String × Bool)) (env : PlayEnv)
    (txt : String) (ts : Nat) (u : String)
    (hq : st.audio_queue = (some f, del) :: rest)
    (hf : f ≠ "") (htxt : txt ≠ "") :
    (process_queue_step st env).is_playing = false
    ∧ (process_queue_step st env).is_speaking = false
    ∧ (process_queue_step st env).current_audio_file = none
    ∧ f ∉ (process_queue_step st env).currently_queued_files
    ∧ (process_queue_step st env).audio_queue = rest
    ∧ (process_queue_step st env).is_processing_queue =
        st.is_processing_queue
    ∧ (play_audio { st with audio_queue := rest } f del env).2 =
        (del && env.fileExistsAfter && env.removeOk)
    ∧ queue_audio st none (some txt) del ts u .err = st := by
  obtain ⟨dr, sp, fe, ro, tnow⟩ := env
  have hstep : process_queue_step st ⟨dr, sp, fe, ro, tnow⟩ =
      (let st1 := (play_audio { st with audio_queue := rest } f del
          ⟨dr, sp, fe, ro, tnow⟩).1
       { st1 with currently_queued_files :=
          st1.currently_queued_files.filter (fun g => decide (g ≠ f)) }) := by
    unfold process_queue_step
    rw [hq]
    simp only [optStrTruthy]
    rw [if_pos (by simp [hf])]
    rfl
  refine ⟨?_, ?_, ?_, ?_, ?_, ?_, ?_, ?_⟩
  · rw [hstep]; cases dr <;> cases sp <;> simp [play_audio]
  · rw [hstep]; cases dr <;> cases sp <;> simp [play_audio]
  · rw [hstep]; cases dr <;> cases sp <;> simp [play_audio]
  · rw [hstep]
    simp only [List.mem_filter]
    intro hmem
    have hcontra := hmem.2
    simp at hcontra
  · rw [hstep]; cases dr <;> cases sp <;> simp [play_audio]
  · rw [hstep]; cases dr <;> cases sp <;> simp [play_audio]
  · cases dr <;> cases sp <;> simp [play_audio]
  · unfold queue_audio
    rw [if_pos (by simp [optStrTruthy, htxt])]

theorem c4_failure_confined_witness :
    (({ initAM with audio_queue := [(some "x", true)] }
        : AMState).audio_queue = [(some "x", true)]
      ∧ ("x" : String) ≠ "" ∧ ("t" : String) ≠ "")
    ∧ ((process_queue_step { initAM with audio_queue := [(some "x", true)] }
          ⟨none, .spawnRaise, true, false, 7⟩).is_playing = false
      ∧ (process_queue_step { initAM with audio_queue := [(some "x", true)] }
          ⟨none, .spawnRaise, true, false, 7⟩).is_speaking = false
      ∧ (process_queue_step { initAM with audio_queue := [(some "x", true)] }
          ⟨none, .spawnRaise, true, false, 7⟩).current_audio_file = none
      ∧ "x" ∉ (process_queue_step
          { initAM with audio_queue := [(some "x", true)] }
          ⟨none, .spawnRaise, true, false, 7⟩).currently_queued_files
      ∧ (process_queue_step { initAM with audio_queue := [(some "x", true)] }
          ⟨none, .spawnRaise, true, false, 7⟩).audio_queue = []
      ∧ (process_queue_step { initAM with audio_queue := [(some "x", true)] }
          ⟨none, .spawnRaise, true, false, 7⟩).is_processing_queue =
        ({ initAM with audio_queue := [(some "x", true)] }
          : AMState).is_processing_queue
      ∧ (play_audio { { initAM with audio_queue := [(some "x", true)] } with
            audio_queue := [] } "x" true
          ⟨none, .spawnRaise, true, false, 7⟩).2 =
        (true && true && false)
      ∧ queue_audio { initAM with audio_queue := [(some "x", true)] }
          none (some "t") true 9 "zz" .err =
        { initAM with audio_queue := [(some "x", true)] }) :=
  ⟨⟨by decide, by decide, by decide⟩,
    c4_failure_confined { initAM with audio_queue := [(some "x", true)] }
      "x" true [] ⟨none, .spawnRaise, true, false, 7⟩ "t" 9 "zz"
      (by decide) (by decide) (by decide)⟩

/-! ## Claim C5 -/

theorem activeCount_start_stop (f : String) (l : List AudioEvent) :
    activeCount (.start f :: .stop f :: l) = activeCount l := by
  simp [activeCount, List.countP_cons, isStartEv, isStopEv]

theorem activeCount_le_one (q : List (Option String × Bool)) :
    ∀ p : List AudioEvent, p <+: queue_trace q → activeCount p ≤ 1 := by
  induction q with
  | nil =>
    intro p hp
    rw [List.prefix_nil.mp hp]
    simp [activeCount]
  | cons item rest ih =>
    obtain ⟨af, d⟩ := item
    intro p hp
    by_cases haf : optStrTruthy af = true
    · simp only [queue_trace, haf, if_true] at hp
      obtain ⟨t, ht⟩ := hp
      cases p with
      | nil => simp [activeCount]
      | cons e1 p1 =>
        cases p1 with
        | nil =>
          simp only [List.cons_append, List.nil_append,
            List.cons.injEq] at ht
          rw [ht.1]
          simp [activeCount, List.countP_cons, isStartEv, isStopEv]
        | cons e2 p2 =>
          simp only [List.cons_append, List.cons.injEq] at ht
          obtain ⟨h1, h2, h3⟩ := ht
          rw [h1, h2, activeCount_start_stop]
          exact ih p2 ⟨t, h3⟩
    · simp only [queue_trace, haf, if_false] at hp
      exact ih p hp

/-- C5 (confirmed): three distinct audio-file identities enqueued in
order a, b, c land in the queue in that order; the single worker loop,
which plays each task to completion before dequeuing the next, therefore
plays them in exactly the order a, b, c, and at no prefix of the
resulting playback trace is more than one task in flight. -/
theorem c5_fifo_single (a b c : String) (da db dc : Bool)
    (ha : a ≠ "") (hb : b ≠ "") (hc : c ≠ "")
    (hab : a ≠ b) (hac : a ≠ c) (hbc : b ≠ c) :
    (queue_audio (queue_audio (queue_audio initAM (some a) none da 0 "" .ok)
        (some b) none db 0 "" .ok) (some c) none dc 0 "" .ok).audio_queue =
      [(some a, da), (some b, db), (some c, dc)]
    ∧ startsOf (queue_trace [(some a, da), (some b, db), (some c, dc)]) =
        [a, b, c]
    ∧ queue_trace [(some a, da), (some b, db), (some c, dc)] =
        [.start a, .stop a, .start b, .stop b, .start c, .stop c]
    ∧ (∀ p : List AudioEvent,
        p <+: queue_trace [(some a, da), (some b, db), (some c, dc)] →
        activeCount p ≤ 1) := by
  have h1 := queue_audio_file_fresh initAM a da 0 "" .ok ha
    (by simp [initAM]) (by simp [initAM])
  have hq1 : (queue_audio initAM (some a) none da 0 "" .ok).audio_queue =
      [(some a, da)] := by
    rw [h1, finishPut_queue]
    rfl
  have hp1 : (queue_audio initAM (some a) none da 0 "" .ok).currently_queued_files =
      [a] := by
    rw [h1, finishPut_pending]
    rfl
  have hc1 : (queue_audio initAM (some a) none da 0 "" .ok).current_audio_file =
      none := by
    rw [h1, finishPut_current]
    rfl
  have h2 := queue_audio_file_fresh
    (queue_audio initAM (some a) none da 0 "" .ok) b db 0 "" .ok hb
    (by rw [hp1]; simp [Ne.symm hab]) (by rw [hc1]; simp)
  have hq2 : (queue_audio (queue_audio initAM (some a) none da 0 "" .ok)
      (some b) none db 0 "" .ok).audio_queue =
      [(some a, da), (some b, db)] := by
    rw [h2, finishPut_queue, hq1]
    rfl
  have hp2 : (queue_audio (queue_audio initAM (some a) none da 0 "" .ok)
      (some b) none db 0 "" .ok).currently_queued_files = [b, a] := by
    rw [h2, finishPut_pending, hp1]
  have hc2 : (queue_audio (queue_audio initAM (some a) none da 0 "" .ok)
      (some b) none db 0 "" .ok).current_audio_file = none := by
    rw [h2, finishPut_current, hc1]
  have h3 := queue_audio_file_fresh
    (queue_audio (queue_audio initAM (some a) none da 0 "" .ok)
      (some b) none db 0 "" .ok) c dc 0 "" .ok hc
    (by rw [hp2]; simp [Ne.symm hac, Ne.symm hbc])
    (by rw [hc2]; simp)
  have hq3 : (queue_audio (queue_audio (queue_audio initAM
      (some a) none da 0 "" .ok) (some b) none db 0 "" .ok)
      (some c) none dc 0 "" .ok).audio_queue =
      [(some a, da), (some b, db), (some c, dc)] := by
    rw [h3, finishPut_queue, hq2]
    rfl
  refine ⟨hq3, ?_, ?_, fun p hp => activeCount_le_one _ p hp⟩
  · simp [queue_trace, startsOf, optStrTruthy, ha, hb, hc]
  · simp [queue_trace, optStrTruthy, ha, hb, hc]

theorem c5_fifo_single_witness :
    (("a" : String) ≠ "" ∧ ("b" : String) ≠ "" ∧ ("c" : String) ≠ ""
      ∧ ("a" : String) ≠ "b" ∧ ("a" : String) ≠ "c"
      ∧ ("b" : String) ≠ "c")
    ∧ ((queue_audio (queue_audio (queue_audio initAM
          (some "a") none false 0 "" .ok) (some "b") none false 0 "" .ok)
          (some "c") none false 0 "" .ok).audio_queue =
        [(some "a", false), (some "b", false), (some "c", false)]
      ∧ startsOf (queue_trace
          [(some "a", false), (some "b", false), (some "c", false)]) =
        ["a", "b", "c"]
      ∧ queue_trace
          [(some "a", false), (some "b", false), (some "c", false)] =
        [.start "a", .stop "a", .start "b", .stop "b",
         .start "c", .stop "c"]
      ∧ (∀ p : List AudioEvent,
          p <+: queue_trace
            [(some "a", false), (some "b", false), (some "c", false)] →
          activeCount p ≤ 1)) :=
  ⟨⟨by decide, by decide, by decide, by decide, by decide, by decide⟩,
    c5_fifo_single "a" "b" "c" false false false
      (by decide) (by decide) (by decide) (by decide) (by decide)
      (by decide)⟩

/-! ## Claim C6 -/

/-- C6 counterexample: at the observable instant after `play_audio` has
set `is_playing` and `current_audio_file` but before the playback
subprocess has been spawned (and likewise during the 0.7s settle sleep
after the process has exited), `is_playing` is true while no subprocess
is active, so `is_playing` is not equivalent to "current task set and
exactly one subprocess active". -/
theorem c6_invariant_cex :
    ((play_audio_obs "a").getD 1 ⟨false, none, false⟩).is_playing = true
    ∧ ((play_audio_obs "a").getD 1
        ⟨false, none, false⟩).subprocess_active = false
    ∧ ((play_audio_obs "a").getD 3 ⟨false, none, false⟩).is_playing = true
    ∧ ((play_audio_obs "a").getD 3
        ⟨false, none, false⟩).subprocess_active = false
    ∧ ¬(((play_audio_obs "a").getD 1 ⟨false, none, false⟩).is_playing =
          true ↔
        ((play_audio_obs "a").getD 1
            ⟨false, none, false⟩).current_audio_file ≠ none ∧
        ((play_audio_obs "a").getD 1
            ⟨false, none, false⟩).subprocess_active = true) := by
  decide

/-- C6 (amended): at every observable instant of a `play_audio f` run,
`is_playing` is true exactly when `current_audio_file` is set; an active
playback subprocess implies `is_playing` and that the current task is
`f`, so at most the single task `f` is ever marked playing — but
`is_playing` can be true with no subprocess active (before the spawn and
during the post-exit settle delay). -/
theorem c6_playing_iff_current (f : String) (s : ObsState)
    (hs : s ∈ play_audio_obs f) :
    (s.is_playing = true ↔ s.current_audio_file ≠ none)
    ∧ (s.subprocess_active = true →
        s.is_playing = true ∧ s.current_audio_file = some f) := by
  simp only [play_audio_obs, List.mem_cons, List.not_mem_nil,
    or_false] at hs
  rcases hs with rfl | rfl | rfl | rfl | rfl <;> simp

theorem c6_playing_iff_current_witness :
    ((⟨true, some "a", true⟩ : ObsState) ∈ play_audio_obs "a")
    ∧ (((⟨true, some "a", true⟩ : ObsState).is_playing = true ↔
        (⟨true, some "a", true⟩ : ObsState).current_audio_file ≠ none)
      ∧ ((⟨true, some "a", true⟩ : ObsState).subprocess_active = true →
          (⟨true, some "a", true⟩ : ObsState).is_playing = true ∧
          (⟨true, some "a", true⟩ : ObsState).current_audio_file =
            some "a")) :=
  ⟨by decide, c6_playing_iff_current "a" ⟨true, some "a", true⟩ (by decide)⟩

/-! ## Claim C7 -/

/-- C7 (code bug): `wait_for_audio_completion` and
`wait_for_queue_empty` declare no parameter besides `self`, so the
`timeout=` keyword calls made by the `/stream` handler raise `TypeError`
instead of returning a timeout indication. -/
theorem c7_wait_timeout_typeerror :
    pyBindKwargs wait_for_audio_completion_params stream_text_wait_kwargs =
      PyCallResult.typeErr
    ∧ pyBindKwargs wait_for_queue_empty_params stream_text_wait_kwargs =
      PyCallResult.typeErr := by
  decide

/-! ## Claim C8 -/

/-- C8 counterexample: the processing flag is set only when the spawned
loop task first runs, so an enqueue made right after a first enqueue —
while a loop instance is already spawned but not yet started — spawns a
second loop instance. -/
theorem c8_second_loop_cex :
    (queue_audio initAM (some "a") none false 0 "" .ok).spawned_loops = 1
    ∧ (queue_audio initAM (some "a") none false 0 "" .ok).is_processing_queue =
        false
    ∧ (queue_audio (queue_audio initAM (some "a") none false 0 "" .ok)
        (some "b") none false 0 "" .ok).spawned_loops = 2 := by
  decide

theorem finishPut_spawned_of_processing (st : AMState) (af : Option String)
    (d : Bool) (h : st.is_processing_queue = true) :
    (finishPut st af d).spawned_loops = st.spawned_loops := by
  simp only [finishPut]
  rw [if_pos (by simpa using h)]

theorem queue_audio_resolved_spawned (st : AMState) (af : Option String)
    (d : Bool) (h : st.is_processing_queue = true) :
    (queue_audio_resolved st af d).spawned_loops = st.spawned_loops := by
  unfold queue_audio_resolved
  split
  · dsimp only
    split
    · rfl
    · rw [finishPut_spawned_of_processing _ _ _ (by simpa using h)]
  · rw [finishPut_spawned_of_processing _ _ _ h]

/-- C8 (amended): once the queue-processor loop has actually started
running (the processing flag is set), no enqueue spawns another loop
instance; the original claim fails only in the window between the
`asyncio.create_task` call and the first execution of the created
task, where a second enqueue spawns a second loop. -/
theorem c8_no_spawn_while_running (st : AMState) (af gt : Option String)
    (d : Bool) (ts : Nat) (u : String) (so : SynthOutcome)
    (h : st.is_processing_queue = true) :
    (queue_audio st af gt d ts u so).spawned_loops = st.spawned_loops := by
  unfold queue_audio
  split
  · split
    · rfl
    · exact queue_audio_resolved_spawned _ _ _ h
  · exact queue_audio_resolved_spawned _ _ _ h

theorem c8_no_spawn_while_running_witness :
    ({ initAM with is_processing_queue := true }
        : AMState).is_processing_queue = true
    ∧ (queue_audio { initAM with is_processing_queue := true }
        (some "a") none false 0 "" .ok).spawned_loops =
      ({ initAM with is_processing_queue := true } : AMState).spawned_loops :=
  ⟨by decide,
    c8_no_spawn_while_running { initAM with is_processing_queue := true }
      (some "a") none false 0 "" .ok (by decide)⟩

/-! ## Claim C9 -/

theorem processChunk_oneshot (st : ProcState) (text fid : List Char)
    (hsub : hasSubL oneshotTag fid = true) :
    processChunk st text fid false =
      (⟨insertA (get_base_response_id fid) text st.oneshots⟩,
        if clean_text_for_tts text = [] then []
        else [clean_text_for_tts text]) := by
  unfold processChunk
  simp only [Bool.not_false, Bool.true_and, hsub, if_true]

theorem processChunk_complete_none (st : ProcState) (text fid : List Char)
    (hl : lookupA (get_base_response_id fid) st.oneshots = none) :
    processChunk st text fid true =
      (st, if clean_text_for_tts text = [] then []
           else [clean_text_for_tts text]) := by
  unfold processChunk
  simp only [Bool.not_true, Bool.false_and, Bool.false_eq_true, if_false,
    eq_self_iff_true, if_true, hl]

theorem lookupA_insertA_isSome (k0 k v : List Char)
    (l : List (List Char × List Char))
    (hb : (lookupA k l).isSome = true) :
    (lookupA k (insertA k0 v l)).isSome = true := by
  by_cases hk : k0 = k
  · subst hk
    rw [lookupA_insertA_self]
    rfl
  · rw [lookupA_insertA_ne _ _ _ _ hk]
    exact hb

theorem processChunk_keeps (st : ProcState) (b text fid : List Char)
    (ic : Bool) (hk : opKeeps b (.chunk text fid ic) = true)
    (hb : (lookupA b st.oneshots).isSome = true) :
    (lookupA b (processChunk st text fid ic).1.oneshots).isSome = true := by
  cases ic with
  | false =>
    by_cases hsub : hasSubL oneshotTag fid = true
    · rw [processChunk_oneshot st text fid hsub]
      exact lookupA_insertA_isSome _ _ _ _ hb
    · unfold processChunk
      simp only [Bool.not_false, Bool.true_and,
        Bool.not_eq_true] at hsub ⊢
      simp only [hsub, Bool.false_eq_true, if_false]
      exact hb
  | true =>
    have hne : get_base_response_id fid ≠ b := by
      simpa [opKeeps] using hk
    unfold processChunk
    simp only [Bool.not_true, Bool.false_and, Bool.false_eq_true, if_false,
      eq_self_iff_true, if_true]
    split
    · split
      · split
        · show (lookupA b (eraseA (get_base_response_id fid)
            st.oneshots)).isSome = true
          rw [lookupA_eraseA_ne _ _ _ hne]
          exact hb
        · show (lookupA b (eraseA (get_base_response_id fid)
            st.oneshots)).isSome = true
          rw [lookupA_eraseA_ne _ _ _ hne]
          exact hb
      · show (lookupA b (eraseA (get_base_response_id fid)
          st.oneshots)).isSome = true
        rw [lookupA_eraseA_ne _ _ _ hne]
        exact hb
    · exact hb

/-- C9 counterexample: a draft stored for base id `resp-1` survives an
arbitrary further exchange in which no final chunk for `resp-1` and no
reset ever arrives — the engine has no idle-time eviction, so the entry
is still present afterwards, contradicting the claim that every stored
draft is removed after a bounded idle period. -/
theorem c9_no_idle_eviction_cex :
    lookupA "resp-1".data (runOps ⟨[]⟩
      [.chunk "first draft".data "resp-1-oneshot".data false,
       .chunk "x".data "other-2-oneshot".data false,
       .chunk "y".data "other-2-complete".data true,
       .chunk "z".data "more-3-oneshot".data false]).oneshots =
      some "first draft".data := by
  decide

/-- C9 (amended): a stored draft entry is removed only by the
reconciliation of a final chunk whose base id matches it, or by
`reset_conversation`; under any sequence of operations containing
neither, the entry persists indefinitely — there is no idle-time
eviction. -/
theorem c9_draft_persistence (ops : List EngineOp) (st : ProcState)
    (b : List Char)
    (hb : (lookupA b st.oneshots).isSome = true)
    (hops : ∀ op ∈ ops, opKeeps b op = true) :
    (lookupA b (runOps st ops).oneshots).isSome = true := by
  induction ops generalizing st with
  | nil => exact hb
  | cons op ops ih =>
    have hop := hops op (by simp)
    cases op with
    | chunk text fid ic =>
      exact ih _ (processChunk_keeps st b text fid ic hop hb)
        (fun o ho => hops o (by simp [ho]))
    | reset => simp [opKeeps] at hop

theorem c9_draft_persistence_witness :
    ((lookupA "resp-1".data
        (⟨[("resp-1".data, "first draft".data)]⟩ : ProcState).oneshots).isSome =
        true
      ∧ (∀ op ∈ ([.chunk "x".data "other-2-oneshot".data false,
            .chunk "y".data "other-2-complete".data true] : List EngineOp),
          opKeeps "resp-1".data op = true))
    ∧ (lookupA "resp-1".data (runOps
        ⟨[("resp-1".data, "first draft".data)]⟩
        [.chunk "x".data "other-2-oneshot".data false,
         .chunk "y".data "other-2-complete".data true]).oneshots).isSome =
      true :=
  ⟨⟨by decide, by decide⟩,
    c9_draft_persistence
      [.chunk "x".data "other-2-oneshot".data false,
       .chunk "y".data "other-2-complete".data true]
      ⟨[("resp-1".data, "first draft".data)]⟩ "resp-1".data
      (by decide) (by decide)⟩

/-! ## Claim C10 -/

theorem splitOnChar_not_mem (c : Char) (l : List Char) (h : c ∉ l) :
    splitOnChar c l = [l] := by
  induction l with
  | nil => rfl
  | cons x xs ih =>
    have hx : x ≠ c := fun he => h (he ▸ List.mem_cons_self x xs)
    have hxs : c ∉ xs := fun hm => h (List.mem_cons_of_mem _ hm)
    simp [splitOnChar, hx, ih hxs]

theorem splitOnChar_append (c : Char) (l1 l2 : List Char) (h : c ∉ l1) :
    splitOnChar c (l1 ++ c :: l2) = l1 :: splitOnChar c l2 := by
  induction l1 with
  | nil => simp [splitOnChar]
  | cons x xs ih =>
    have hx : x ≠ c := fun he => h (he ▸ List.mem_cons_self x xs)
    have hxs : c ∉ xs := fun hm => h (List.mem_cons_of_mem _ hm)
    simp [splitOnChar, hx, ih hxs]

theorem get_base_two_parts (fid : List Char)
    (h : (splitOnChar '-' fid).length ≤ 2) :
    get_base_response_id fid = fid := by
  unfold get_base_response_id
  rw [if_neg]
  exact fun hcon => absurd hcon.1 (by omega)

theorem get_base_suffix_unstripped (base suffix : List Char)
    (hb : '-' ∉ base) (hs : '-' ∉ suffix) :
    get_base_response_id (base ++ '-' :: suffix) = base ++ '-' :: suffix := by
  apply get_base_two_parts
  rw [splitOnChar_append _ _ _ hb, splitOnChar_not_mem _ _ hs]
  simp

theorem hasSubL_cons (pat : List Char) (ch : Char) (l : List Char)
    (h : hasSubL pat l = true) : hasSubL pat (ch :: l) = true := by
  cases l with
  | nil => simp [hasSubL] at h ⊢; simp [h]
  | cons y ys => simp [hasSubL] at h ⊢; tauto

theorem hasSubL_append_left (pat l1 l2 : List Char)
    (h : hasSubL pat l2 = true) : hasSubL pat (l1 ++ l2) = true := by
  induction l1 with
  | nil => simpa
  | cons x xs ih =>
    simp only [List.cons_append]
    exact hasSubL_cons _ _ _ ih

/-- C10 (confirmed): `_get_base_response_id` strips a known suffix only
when the id has more than two dash-separated parts; an id of the form
`base-oneshot` with a dash-free base is returned unchanged, so the draft
is stored under the full id `base-oneshot`, the final chunk's lookup key
`base-complete` misses it, the entire cleaned final text is enqueued in
addition to the already-spoken draft, and the stale draft entry is never
removed. -/
theorem c10_base_id_suffix (st : ProcState) (base draft final : List Char)
    (hdash : '-' ∉ base)
    (h2 : lookupA (base ++ "-complete".data) st.oneshots = none) :
    get_base_response_id (base ++ "-oneshot".data) =
      base ++ "-oneshot".data
    ∧ get_base_response_id (base ++ "-complete".data) =
      base ++ "-complete".data
    ∧ (∀ fid : List Char, (splitOnChar '-' fid).length ≤ 2 →
        get_base_response_id fid = fid)
    ∧ (processChunk st draft (base ++ "-oneshot".data) false).2 =
        (if clean_text_for_tts draft = [] then []
         else [clean_text_for_tts draft])
    ∧ (processChunk (processChunk st draft
          (base ++ "-oneshot".data) false).1
        final (base ++ "-complete".data) true).2 =
        (if clean_text_for_tts final = [] then []
         else [clean_text_for_tts final])
    ∧ lookupA (base ++ "-oneshot".data)
        (processChunk (processChunk st draft
            (base ++ "-oneshot".data) false).1
          final (base ++ "-complete".data) true).1.oneshots =
        some draft := by
  have honedata : ("-oneshot".data : List Char) = '-' :: "oneshot".data :=
    rfl
  have hcompdata : ("-complete".data : List Char) = '-' :: "complete".data :=
    rfl
  have hg1 : get_base_response_id (base ++ "-oneshot".data) =
      base ++ "-oneshot".data := by
    rw [honedata]
    exact get_base_suffix_unstripped base _ hdash (by decide)
  have hg2 : get_base_response_id (base ++ "-complete".data) =
      base ++ "-complete".data := by
    rw [hcompdata]
    exact get_base_suffix_unstripped base _ hdash (by decide)
  have hsub1 : hasSubL oneshotTag (base ++ "-oneshot".data) = true :=
    hasSubL_append_left _ base _ (by decide)
  have hone := processChunk_oneshot st draft _ hsub1
  have hne12 : base ++ "-oneshot".data ≠ base ++ "-complete".data := by
    intro he
    have := List.append_cancel_left he
    exact absurd this (by decide)
  have hlookup2 : lookupA (get_base_response_id (base ++ "-complete".data))
      (processChunk st draft (base ++ "-oneshot".data) false).1.oneshots =
      none := by
    rw [hg2, hone]
    show lookupA (base ++ "-complete".data)
      (insertA (get_base_response_id (base ++ "-oneshot".data)) draft
        st.oneshots) = none
    rw [hg1, lookupA_insertA_ne _ _ _ _ hne12, h2]
  have hcomp := processChunk_complete_none
    (processChunk st draft (base ++ "-oneshot".data) false).1
    final (base ++ "-complete".data) hlookup2
  refine ⟨hg1, hg2, fun fid hf => get_base_two_parts fid hf, ?_, ?_, ?_⟩
  · rw [hone]
  · rw [hcomp]
  · rw [hcomp]
    show lookupA (base ++ "-oneshot".data)
      (processChunk st draft (base ++ "-oneshot".data) false).1.oneshots =
      some draft
    rw [hone]
    show lookupA (base ++ "-oneshot".data)
      (insertA (get_base_response_id (base ++ "-oneshot".data)) draft
        st.oneshots) = some draft
    rw [hg1, lookupA_insertA_self]

set_option maxRecDepth 8000 in
theorem c10_base_id_suffix_witness :
    ('-' ∉ ("base".data : List Char)
      ∧ lookupA ("base".data ++ "-complete".data)
          (⟨[]⟩ : ProcState).oneshots = none)
    ∧ (get_base_response_id ("base".data ++ "-oneshot".data) =
        "base".data ++ "-oneshot".data
      ∧ get_base_response_id ("base".data ++ "-complete".data) =
        "base".data ++ "-complete".data
      ∧ (∀ fid : List Char, (splitOnChar '-' fid).length ≤ 2 →
          get_base_response_id fid = fid)
      ∧ (processChunk ⟨[]⟩ "hello there".data
          ("base".data ++ "-oneshot".data) false).2 =
          (if clean_text_for_tts "hello there".data = [] then []
           else [clean_text_for_tts "hello there".data])
      ∧ (processChunk (processChunk ⟨[]⟩ "hello there".data
            ("base".data ++ "-oneshot".data) false).1
          "different text".data ("base".data ++ "-complete".data) true).2 =
          (if clean_text_for_tts "different text".data = [] then []
           else [clean_text_for_tts "different text".data])
      ∧ lookupA ("base".data ++ "-oneshot".data)
          (processChunk (processChunk ⟨[]⟩ "hello there".data
              ("base".data ++ "-oneshot".data) false).1
            "different text".data ("base".data ++ "-complete".data)
            true).1.oneshots =
          some "hello there".data) :=
  ⟨⟨by decide, by decide⟩,
    c10_base_id_suffix ⟨[]⟩ "base".data "hello there".data
      "different text".data (by decide) (by decide)⟩
